import Mathlib

/-!
Verification development for the GeminiNote generation pipeline
(`src/main.ts` / `src/geminiService.ts`, i.e. `src/unnamed/part_003` and
`src/unnamed/part_006`).

JavaScript strings are modelled as `List Char` (one element per code point;
the sources never rely on UTF-16 surrogate splitting).  Each definition
mirrors one function or code block of the TypeScript source; the external
collaborators (Obsidian editor/vault API, network transport) are modelled
as explicit state values or parameters at the call boundary.
-/

abbrev Str := List Char

def strLit (s : String) : Str := s.data

/-- ECMAScript whitespace, as used both by `String.prototype.trim` and by
the regex class `\s` (WhiteSpace ∪ LineTerminator, ECMA-262):
TAB, LF, VT, FF, CR, SP, NBSP, ZWNBSP, the Unicode Zs code points,
and the line terminators U+2028/U+2029. -/
def jsWsChar (c : Char) : Bool :=
  let n := c.toNat
  n = 0x9 || n = 0xA || n = 0xB || n = 0xC || n = 0xD || n = 0x20 ||
  n = 0xA0 || n = 0x1680 || (0x2000 ≤ n && n ≤ 0x200A) ||
  n = 0x2028 || n = 0x2029 || n = 0x202F || n = 0x205F || n = 0x3000 ||
  n = 0xFEFF

def trimLeft (s : Str) : Str := s.dropWhile jsWsChar

def trimRight (s : Str) : Str := ((s.reverse).dropWhile jsWsChar).reverse

/-- `String.prototype.trim()`. -/
def jsTrim (s : Str) : Str := trimRight (trimLeft s)

/-- Regex `\w` of a non-unicode JS regex: `[A-Za-z0-9_]`. -/
def isWordChar (c : Char) : Bool :=
  let n := c.toNat
  (97 ≤ n && n ≤ 122) || (65 ≤ n && n ≤ 90) || (48 ≤ n && n ≤ 57) || n = 95

def fenceMarker : Str := strLit "```"

/-- Shared core of the two code-fence regexes
`/^```(?:tag)?\s*([\s\S]*?)\s*```$/` used in `parseResponse`
(`src/unnamed/part_006` lines 153 and 163).  For an input that starts with
a fence of three backticks followed by `tagLen` tag characters and ends
with three backticks, the greedy leading `\s*`, the lazy group and the
greedy trailing `\s*` make the capture the region between the tag and the
closing fence stripped of surrounding `\s` runs; since every caller
applies `.trim()` (same character set) to the capture, we return the raw
region and let the caller trim.  The regex matches exactly when the string
starts and ends with a fence and is long enough for the two fences and the
tag to be disjoint. -/
def fenceCore (tagLen : Nat) (s : Str) : Option Str :=
  if s.take 3 = fenceMarker && s.drop (s.length - 3) = fenceMarker
     && decide (6 + tagLen ≤ s.length)
  then some ((s.drop (3 + tagLen)).take (s.length - 3 - (3 + tagLen)))
  else none

/-- Length of the greedy `(?:\w+)?` tag match at the start of `l`. -/
def wordRunLen (l : Str) : Nat := (l.takeWhile isWordChar).length

/-- The in-place fence regex `/^```(?:\w+)?\s*([\s\S]*?)\s*```$/i`
(`part_006` line 153): any word-character language tag. -/
def fenceAny (s : Str) : Option Str := fenceCore (wordRunLen (s.drop 3)) s

/-- Greedy case-insensitive `(?:json)?` at the start of `l`. -/
def ciJsonTagLen (l : Str) : Nat :=
  if (l.take 4).map Char.toLower = strLit "json" then 4 else 0

/-- The create-note fence regex `/^```(?:json)?\s*([\s\S]*?)\s*```$/i`
(`part_006` line 163). -/
def fenceJson (s : Str) : Option Str := fenceCore (ciJsonTagLen (s.drop 3)) s

/-- `pat` occurs in `hay` at index `i`: the occurrence lies inside `hay`
and the substring of `hay` starting at `i` of length `pat.length` is
`pat`.  (The bound matters only for `pat = []`, where it restricts the
occurrence positions to the valid string indices `0..hay.length`, exactly
the positions `indexOf`/`lastIndexOf` can report.) -/
def occursAt (hay pat : Str) (i : Nat) : Prop :=
  i + pat.length ≤ hay.length ∧ (hay.drop i).take pat.length = pat

instance (hay pat : Str) (i : Nat) : Decidable (occursAt hay pat i) := by
  unfold occursAt; infer_instance

/-- `String.prototype.indexOf`, as `none` for `-1`:
the least index at which `pat` occurs in `hay`. -/
def jsIndexOf (pat : Str) : Str → Option Nat
  | [] => if pat = [] then some 0 else none
  | c :: rest =>
    if ((c :: rest).take pat.length) = pat then some 0
    else (jsIndexOf pat rest).map (· + 1)

/-- `String.prototype.lastIndexOf`, as `none` for `-1`:
the greatest index at which `pat` occurs in `hay`. -/
def jsLastIndexOf (pat : Str) : Str → Option Nat
  | [] => if pat = [] then some 0 else none
  | c :: rest =>
    match jsLastIndexOf pat rest with
    | some i => some (i + 1)
    | none => if ((c :: rest).take pat.length) = pat then some 0 else none

/-- Number of newline characters in `p`. -/
def nlCount (p : Str) : Nat := p.countP (fun c => c = '\n')

/-- `prefix.split('\n')` has `nlCount prefix + 1` parts, so the source's
`lines.length - 1` (`part_003` line 143) equals `nlCount prefix`. -/
def lineOfPrefix (p : Str) : Nat := nlCount p

/-- The last part of `prefix.split('\n')` is the segment after the last
newline; the source's `lines[lines.length - 1].length` (`part_003`
line 144) is its length. -/
def chOfPrefix : Str → Nat
  | [] => 0
  | c :: rest =>
    if c = '\n' then chOfPrefix rest
    else if '\n' ∈ rest then chOfPrefix rest
    else rest.length + 1

/-- Character offset of the start of line `l` in document `doc`
(line `l` begins immediately after the `l`-th newline); this is the
editor's interpretation of a `{line, ch}` position with `ch = 0`. -/
def lineStartOffset : Str → Nat → Nat
  | _, 0 => 0
  | [], _ + 1 => 0
  | c :: rest, l + 1 =>
    1 + (if c = '\n' then lineStartOffset rest l else lineStartOffset rest (l + 1))

/-- Editor interpretation of a `{line, ch}` position as a character
offset into `doc`. -/
def posToOffset (doc : Str) (line ch : Nat) : Nat := lineStartOffset doc line + ch

/-! ### JSON values and `JSON.parse`

`parseResponse` relies on `JSON.parse` for its two structured tiers.  A
parsed value is modelled by `Json`; numbers are carried as their source
lexeme (JavaScript converts them to IEEE doubles, but no property in this
development depends on the numeric value, only on truthiness, which is
decidable from the lexeme).  A JS string from a `\uXXXX` escape holds
UTF-16 units; a surrogate pair is combined into its scalar and a lone
surrogate — not representable as a Lean `Char` — is modelled as U+FFFD
(no claim depends on lone surrogates). -/

inductive Json where
  | null : Json
  | bool (b : Bool) : Json
  | num (lexeme : Str) : Json
  | str (s : Str) : Json
  | arr (elems : List Json) : Json
  | obj (fields : List (Str × Json)) : Json

/-- JSON (`JSON.parse`) insignificant whitespace: space, tab, LF, CR. -/
def jsonWs (c : Char) : Bool := c = ' ' || c = '\t' || c = '\n' || c = '\r'

def skipWs (s : Str) : Str := s.dropWhile jsonWs

def hexVal (c : Char) : Option Nat :=
  let n := c.toNat
  if 48 ≤ n && n ≤ 57 then some (n - 48)        -- 0-9
  else if 97 ≤ n && n ≤ 102 then some (n - 87)  -- a-f
  else if 65 ≤ n && n ≤ 70 then some (n - 55)   -- A-F
  else none

def parseU4 : Str → Option (Nat × Str)
  | a :: b :: c :: d :: rest =>
    match hexVal a, hexVal b, hexVal c, hexVal d with
    | some x, some y, some z, some w => some (x * 4096 + y * 256 + z * 16 + w, rest)
    | _, _, _, _ => none
  | _ => none

/-- Single-character escapes of a JSON string. -/
def escChar (c : Char) : Option Char :=
  if c = '"' then some '"'
  else if c = '\\' then some '\\'
  else if c = '/' then some '/'
  else if c = 'b' then some (Char.ofNat 8)
  else if c = 'f' then some (Char.ofNat 12)
  else if c = 'n' then some '\n'
  else if c = 'r' then some '\r'
  else if c = 't' then some '\t'
  else none

def replacementChar : Char := Char.ofNat 0xFFFD

/-- Body of a JSON string after the opening quote; returns the decoded
string and the input after the closing quote.  Unescaped control
characters are rejected, as in `JSON.parse`. -/
def parseStringBody : Nat → Str → Option (Str × Str)
  | 0, _ => none
  | _ + 1, [] => none
  | fuel + 1, c :: rest =>
    if c = '"' then some ([], rest)
    else if c = '\\' then
      match rest with
      | 'u' :: r2 =>
        match parseU4 r2 with
        | none => none
        | some (n, r3) =>
          if 0xD800 ≤ n && n ≤ 0xDBFF then
            match r3 with
            | '\\' :: 'u' :: r4 =>
              match parseU4 r4 with
              | some (m, r5) =>
                if 0xDC00 ≤ m && m ≤ 0xDFFF then
                  (parseStringBody fuel r5).map
                    (fun p => (Char.ofNat (0x10000 + (n - 0xD800) * 0x400 + (m - 0xDC00)) :: p.1, p.2))
                else (parseStringBody fuel r3).map (fun p => (replacementChar :: p.1, p.2))
              | none => (parseStringBody fuel r3).map (fun p => (replacementChar :: p.1, p.2))
            | _ => (parseStringBody fuel r3).map (fun p => (replacementChar :: p.1, p.2))
          else if 0xDC00 ≤ n && n ≤ 0xDFFF then
            (parseStringBody fuel r3).map (fun p => (replacementChar :: p.1, p.2))
          else
            (parseStringBody fuel r3).map (fun p => (Char.ofNat n :: p.1, p.2))
      | e :: r2 =>
        match escChar e with
        | some ch => (parseStringBody fuel r2).map (fun p => (ch :: p.1, p.2))
        | none => none
      | [] => none
    else if c.toNat < 0x20 then none
    else (parseStringBody fuel rest).map (fun p => (c :: p.1, p.2))

/-- JSON number, returned as its lexeme.  A maximal valid number prefix is
consumed; any malformed tail is left for the caller, which then fails on
the unexpected character exactly as `JSON.parse` does. -/
def parseNumber (cs : Str) : Option (Str × Str) :=
  let (neg, cs1) : Str × Str := match cs with
    | '-' :: r => (['-'], r)
    | _ => ([], cs)
  match cs1 with
  | c :: r =>
    if c = '0' then some (afterInt (neg ++ ['0']) r)
    else if c.isDigit then
      let run := (c :: r).takeWhile Char.isDigit
      some (afterInt (neg ++ run) ((c :: r).dropWhile Char.isDigit))
    else none
  | [] => none
where
  afterFrac (lex : Str) (rest : Str) : Str × Str :=
    match rest with
    | 'e' :: r2 => expPart lex ['e'] r2
    | 'E' :: r2 => expPart lex ['E'] r2
    | _ => (lex, rest)
  expPart (lex : Str) (e : Str) (r2 : Str) : Str × Str :=
    let (sgn, r3) : Str × Str := match r2 with
      | '+' :: r => (['+'], r)
      | '-' :: r => (['-'], r)
      | _ => ([], r2)
    let ds := r3.takeWhile Char.isDigit
    if ds = [] then (lex, e ++ sgn ++ r3)
    else (lex ++ e ++ sgn ++ ds, r3.dropWhile Char.isDigit)
  afterInt (lex : Str) (rest : Str) : Str × Str :=
    match rest with
    | '.' :: r2 =>
      let ds := r2.takeWhile Char.isDigit
      if ds = [] then (lex, rest)
      else afterFrac (lex ++ '.' :: ds) (r2.dropWhile Char.isDigit)
    | _ => afterFrac lex rest

mutual

/-- One JSON value (leading whitespace allowed), returning the value and
the rest of the input. -/
def parseValue : Nat → Str → Option (Json × Str)
  | 0, _ => none
  | fuel + 1, cs =>
    match skipWs cs with
    | [] => none
    | '"' :: rest =>
      (parseStringBody (rest.length + 1) rest).map (fun p => (Json.str p.1, p.2))
    | '[' :: rest =>
      match skipWs rest with
      | ']' :: r2 => some (Json.arr [], r2)
      | r1 => (parseElems fuel r1).map (fun p => (Json.arr p.1, p.2))
    | '\x7b' :: rest =>
      match skipWs rest with
      | '\x7d' :: r2 => some (Json.obj [], r2)
      | r1 => (parseMembers fuel r1).map (fun p => (Json.obj p.1, p.2))
    | 't' :: 'r' :: 'u' :: 'e' :: rest => some (Json.bool true, rest)
    | 'f' :: 'a' :: 'l' :: 's' :: 'e' :: rest => some (Json.bool false, rest)
    | 'n' :: 'u' :: 'l' :: 'l' :: rest => some (Json.null, rest)
    | other => (parseNumber other).map (fun p => (Json.num p.1, p.2))

/-- `value (',' value)* ']'` — array elements after at least one value. -/
def parseElems : Nat → Str → Option (List Json × Str)
  | 0, _ => none
  | fuel + 1, cs =>
    match parseValue fuel cs with
    | none => none
    | some (v, r) =>
      match skipWs r with
      | ',' :: r2 => (parseElems fuel r2).map (fun p => (v :: p.1, p.2))
      | ']' :: r2 => some ([v], r2)
      | _ => none

/-- `string ':' value (',' ...)* '}'` — object members after at least one
pair.  Duplicate keys are kept in order; property lookup takes the last
binding, as in JavaScript. -/
def parseMembers : Nat → Str → Option (List (Str × Json) × Str)
  | 0, _ => none
  | fuel + 1, cs =>
    match skipWs cs with
    | '"' :: rest =>
      match parseStringBody (rest.length + 1) rest with
      | none => none
      | some (k, r1) =>
        match skipWs r1 with
        | ':' :: r2 =>
          match parseValue fuel r2 with
          | none => none
          | some (v, r3) =>
            match skipWs r3 with
            | ',' :: r4 => (parseMembers fuel r4).map (fun p => ((k, v) :: p.1, p.2))
            | '\x7d' :: r4 => some ([(k, v)], r4)
            | _ => none
        | _ => none
    | _ => none

end

/-- `JSON.parse`: parse one value and require only whitespace after it;
`none` models a thrown `SyntaxError`.  The fuel `cs.length + 1` is enough
because every recursive step first consumes at least one character. -/
def jsonParse (cs : Str) : Option Json :=
  match parseValue (cs.length + 1) cs with
  | some (v, rest) => if skipWs rest = [] then some v else none
  | none => none

/-! ### JavaScript value semantics used by the source -/

/-- A JSON number is falsy iff its value is zero, i.e. every digit of the
mantissa (before any exponent) is `0`. -/
def numLexZero (lex : Str) : Bool :=
  (lex.takeWhile (fun c => c ≠ 'e' && c ≠ 'E')).all (fun c => !c.isDigit || c = '0')

/-- JavaScript truthiness of a value produced by `JSON.parse`. -/
def jsTruthy : Json → Bool
  | .null => false
  | .bool b => b
  | .num l => !numLexZero l
  | .str s => !s.isEmpty
  | .arr _ => true
  | .obj _ => true

/-- Truthiness of `response.anchorLabel`, where a missing property is
`undefined` (falsy). -/
def jsTruthyOpt : Option Json → Bool
  | none => false
  | some j => jsTruthy j

/-- Property access `v.k` on a `JSON.parse` result: on an object the last
binding of the key wins (later duplicate keys overwrite), on any other
value the properties read by this plugin are `undefined` (`none`). -/
def propGet : Json → Str → Option Json
  | .obj fs, k => lookupLast fs k
  | _, _ => none
where
  lookupLast : List (Str × Json) → Str → Option Json
    | [], _ => none
    | (k', v) :: rest, k =>
      match lookupLast rest k with
      | some r => some r
      | none => if k' = k then some v else none

mutual

/-- Template-literal rendering `${v}` of a value, used on
`response.anchorLabel` in the clipboard-diversion branch (`part_003`
lines 159-161).  A number is rendered by its JSON lexeme; JavaScript
renders the IEEE value instead (e.g. `1.0` prints as `1`) — no claim in
this development depends on the rendering of a numeric label.  An array
renders as its comma-joined elements with `null` rendering empty, an
object as `[object Object]`. -/
def jsDisplay : Json → Str
  | .null => strLit "null"
  | .bool true => strLit "true"
  | .bool false => strLit "false"
  | .num l => l
  | .str s => s
  | .obj _ => strLit "[object Object]"
  | .arr es => jsDisplayElems es

/-- Array elements joined by `,`; a `null` element renders empty
(`String([null]) === ""`). -/
def jsDisplayElems : List Json → Str
  | [] => []
  | [j] => jsDisplayElem j
  | j :: rest => jsDisplayElem j ++ ',' :: jsDisplayElems rest

def jsDisplayElem : Json → Str
  | .null => []
  | .bool true => strLit "true"
  | .bool false => strLit "false"
  | .num l => l
  | .str s => s
  | .obj _ => strLit "[object Object]"
  | .arr es => jsDisplayElems es

end

def jsDisplayOpt : Option Json → Str
  | none => strLit "undefined"
  | some j => jsDisplay j

/-! ### `GenerationResponse` and `parseResponse`
(`src/unnamed/part_006` lines 149-210) -/

/-- The record returned by `parseResponse`.  The TypeScript interface
declares `anchorLabel?: string`, but `parseResponse` copies
`parsed.anchorLabel` without any check, so at runtime the field holds an
arbitrary JSON value or is absent (`none` = `undefined`). -/
structure GenerationResponse where
  title : Str
  content : Str
  anchorLabel : Option Json := none
  isFallback : Bool

def keyTitle : Str := strLit "title"
def keyContent : Str := strLit "content"
def keyAnchorLabel : Str := strLit "anchorLabel"

def isStringVal : Option Json → Bool
  | some (.str _) => true
  | _ => false

def strOfVal : Option Json → Str
  | some (.str s) => s
  | _ => []

/-- `isValidResponse` (`part_006` lines 205-209):
`obj && typeof obj.title === 'string' && typeof obj.content === 'string'`.
Note: no non-emptiness requirement on either field. -/
def isValidResponse (p : Json) : Bool :=
  jsTruthy p && isStringVal (propGet p keyTitle) && isStringVal (propGet p keyContent)

/-- The non-fallback response assembled from an accepted candidate
(`part_006` lines 172-177 / 188-193). -/
def mkStructured (p : Json) : GenerationResponse :=
  { title := strOfVal (propGet p keyTitle)
  , content := strOfVal (propGet p keyContent)
  , anchorLabel := propGet p keyAnchorLabel
  , isFallback := false }

/-- Tier-3 fallback (`part_006` lines 198-202): fixed placeholder title
and the raw, untrimmed model output as content. -/
def fallbackResp (raw : Str) : GenerationResponse :=
  { title := strLit "Untitled Gemini Note"
  , content := raw
  , anchorLabel := none
  , isFallback := true }

/-- The tier-2 brace substring (`part_006` lines 182-185):
`rawResponse.substring(firstBrace, lastBrace + 1)` when
`firstBrace !== -1 && lastBrace !== -1 && lastBrace > firstBrace`. -/
def tier2Sub (raw : Str) : Option Str :=
  match jsIndexOf ['\x7b'] raw, jsLastIndexOf ['\x7d'] raw with
  | some fb, some lb =>
    if fb < lb then some ((raw.drop fb).take (lb + 1 - fb)) else none
  | _, _ => none

/-- Tier 2 followed by the tier-3 fallback (`part_006` lines 181-202). -/
def tier2Phase (raw : Str) : GenerationResponse :=
  match tier2Sub raw with
  | some sub =>
    match jsonParse sub with
    | some p => if isValidResponse p then mkStructured p else fallbackResp raw
    | none => fallbackResp raw
  | none => fallbackResp raw

/-- The tier-1 input (`part_006` lines 162-167): the trimmed raw text,
with an enclosing ```` ```json ````/untagged fence stripped and the
capture trimmed. -/
def cleanJsonOf (raw : Str) : Str :=
  let t := jsTrim raw
  match fenceJson t with
  | some inner => jsTrim inner
  | none => t

/-- `parseResponse(rawResponse, expectJson)` (`part_006` lines 149-203). -/
def parseResponse (raw : Str) (expectJson : Bool) : GenerationResponse :=
  let t := jsTrim raw
  if !expectJson then
    match fenceAny t with
    | some inner => { title := [], content := jsTrim inner, anchorLabel := none, isFallback := false }
    | none => { title := [], content := t, anchorLabel := none, isFallback := false }
  else
    match jsonParse (cleanJsonOf raw) with
    | some p => if isValidResponse p then mkStructured p else tier2Phase raw
    | none => tier2Phase raw

/-! ### TransportClient (`src/unnamed/part_006` lines 96-147)

The network is the external boundary: the provider's behaviour for one
request is a value of `SdkResult` / `HostResult`, and the two transport
functions are modelled as functions of that value.  A thrown `Error` is
modelled as `Except.error` carrying a `TransportError` describing the
throw site (claims depend on failure vs. success, not on message text). -/

inductive TransportError where
  | http (status : Nat) (body : Json)
  | emptyBody
  | network (msg : Str)
  | sdk (msg : Str)

/-- Outcome of `ai.models.generateContent`: either a rejection, or a
response whose `.text` is a string or `undefined`. -/
inductive SdkResult where
  | failure (msg : Str)
  | success (text : Option Str)

/-- `generateWithSdk` (`part_006` lines 96-108): on success it returns
`response.text || ""`, converting a missing or empty `text` into the
empty string; on rejection it rethrows. -/
def generateWithSdk : SdkResult → Except TransportError Str
  | .failure m => .error (.sdk m)
  | .success t => .ok (t.getD [])

/-- Outcome of `requestUrl`: a transport-level rejection (network failure,
unparseable JSON body, or the default `throw`-on-≥400 of `requestUrl`,
all caught by the same `catch`) or a status plus parsed JSON body. -/
inductive HostResult where
  | netError (msg : Str)
  | httpResponse (status : Nat) (body : Json)

/-- `a?.[0]`: element access used on `candidates` and `parts`. -/
def jsIdx0 : Option Json → Option Json
  | some (.arr (x :: _)) => some x
  | some (.str (c :: _)) => some (.str [c])
  | some (.obj fs) => propGet (.obj fs) (strLit "0")
  | _ => none

def optProp (o : Option Json) (k : Str) : Option Json :=
  match o with
  | some j => propGet j k
  | none => none

/-- `data.candidates?.[0]?.content?.parts?.[0]?.text`
(`part_006` line 138). -/
def extractCandidateText (body : Json) : Option Json :=
  optProp (jsIdx0 (optProp (optProp (jsIdx0 (propGet body (strLit "candidates")))
    (strLit "content")) (strLit "parts"))) (strLit "text")

/-- `generateWithCustomHost` (`part_006` lines 110-147), after URL
construction: status ≥ 400 throws, a falsy extracted text (missing or
empty) throws `Empty response from API`, a `null` body throws a
`TypeError` on `data.candidates`; every throw is caught and re-thrown as
`API Request Failed`, here all kept as `Except.error`.  A truthy
extracted text is returned as-is (the TS type says string, but no check
is made). -/
def generateWithCustomHost : HostResult → Except TransportError Json
  | .netError m => .error (.network m)
  | .httpResponse st body =>
    if 400 ≤ st then .error (.http st body)
    else
      match body with
      | .null => .error (.network (strLit "TypeError"))
      | b =>
        match extractCandidateText b with
        | some t => if jsTruthy t then .ok t else .error .emptyBody
        | none => .error .emptyBody

/-! ### The live document/editor and the vault

Model of the Obsidian collaborators used after the network call: the
editor holds the document text and the current selection as character
offsets; `{line, ch}` positions given to `setSelection` are interpreted
through `posToOffset`.  The vault is the set of files (path, content) and
folders; `getAbstractFileByPath` is a lookup over both. -/

structure EditorState where
  doc : Str
  selFrom : Nat
  selTo : Nat

/-- `editor.getSelection()`. -/
def getSel (ed : EditorState) : Str := (ed.doc.drop ed.selFrom).take (ed.selTo - ed.selFrom)

/-- `editor.replaceSelection(t)`: one atomic edit replacing the selected
range, leaving the cursor after the inserted text. -/
def replaceSelection (ed : EditorState) (t : Str) : EditorState :=
  { doc := ed.doc.take ed.selFrom ++ t ++ ed.doc.drop ed.selTo
  , selFrom := ed.selFrom + t.length
  , selTo := ed.selFrom + t.length }

structure Vault where
  files : List (Str × Str)
  folders : List Str

def lookupFile (v : Vault) (p : Str) : Option Str :=
  (v.files.find? (fun e => decide (e.1 = p))).map (fun e => e.2)

/-- `app.vault.getAbstractFileByPath(p)` is non-null: a file or a folder
exists at `p`. -/
def vaultHas (v : Vault) (p : Str) : Bool :=
  (lookupFile v p).isSome || v.folders.any (fun q => decide (q = p))

/-! ### Request data model (`src/unnamed/part_008`) -/

inductive ContextType where
  | selection_only
  | selection_and_full_note
deriving DecidableEq

inductive OutputAction where
  | create_note
  | replace_selection
  | insert_after
deriving DecidableEq

structure GenerationRequest where
  instructionPath : Str
  instructionContent : Str
  contextType : ContextType
  saveLocation : Str
  selectedText : Str
  contextBefore : Str
  contextAfter : Str
  parentNoteContent : Str
  parentNoteTitle : Str
  backgroundContext : Str
  outputAction : OutputAction

/-! ### Safe-Apply reconciliation (`src/unnamed/part_003` lines 123-153) -/

inductive ReconcileVerdict where
  | safe (ed : EditorState)
  | divert

/-- The verification block of `runGeneration`: the current selection is
compared against the snapshot first; only on mismatch is the document
scanned, and on a unique match (`firstIndex !== -1 && firstIndex ===
lastIndex`) the selection is moved to the recomputed `{line, ch}` span of
that occurrence. -/
def reconcile (snap : Str) (ed : EditorState) : ReconcileVerdict :=
  if getSel ed = snap then .safe ed
  else
    let doc := ed.doc
    match jsIndexOf snap doc with
    | none => .divert
    | some fi =>
      if jsLastIndexOf snap doc = some fi then
        let p1 := doc.take fi
        let p2 := doc.take (fi + snap.length)
        .safe { doc := doc
              , selFrom := posToOffset doc (lineOfPrefix p1) (chOfPrefix p1)
              , selTo := posToOffset doc (lineOfPrefix p2) (chOfPrefix p2) }
      else .divert

/-! ### New-document materialization (`src/unnamed/part_003` lines
206-227).  `normalizePath` is the external Obsidian path normalizer,
passed as a parameter `normalize`. -/

/-- The class removed from titles: `/[\\/:*?"<>|]/g`
(`part_003` line 215). -/
def illegalFileChar (c : Char) : Bool :=
  c = '\\' || c = '/' || c = ':' || c = '*' || c = '?' || c = '"' || c = '<' || c = '>' || c = '|'

/-- `response.title.replace(/[\\/:*?"<>|]/g, '').trim()`. -/
def sanitizeTitle (title : Str) : Str := jsTrim (title.filter (fun c => !illegalFileChar c))

/-- Target-folder resolution (`part_003` lines 207-213): an explicit
`saveLocation` (truthy = non-empty) is normalized and created if absent;
otherwise the parent file's own folder is used. -/
def folderPhase (normalize : Str → Str) (saveLocation parentFolder : Str) (v : Vault) :
    Str × Vault :=
  if !saveLocation.isEmpty then
    let t := normalize saveLocation
    if vaultHas v t then (t, v) else (t, { v with folders := t :: v.folders })
  else (parentFolder, v)

def mdSuffix : Str := strLit ".md"

/-- `normalizePath(`${targetFolder}/${safeTitle}.md`)` (`part_003`
line 216). -/
def targetPathOf (normalize : Str → Str) (title tf : Str) : Str :=
  normalize (tf ++ '/' :: (sanitizeTitle title ++ mdSuffix))

structure CreateResult where
  created : Option Str
  vault : Vault
  notices : List Str

def collisionNotice (tp : Str) : Str :=
  strLit "Note '" ++ tp ++ strLit "' already exists. Aborting."

/-- The backlink line prepended to the new note (`part_003` line 223). -/
def parentLinkLine (parentPath parentBasename : Str) : Str :=
  strLit "Generated from: [[" ++ parentPath ++ strLit "|" ++ parentBasename ++ strLit "]]\n\n---\n\n"

/-- `createNoteFile` (`part_003` lines 206-227). -/
def createNoteFile (normalize : Str → Str) (resp : GenerationResponse) (req : GenerationRequest)
    (parentPath parentBasename parentFolder : Str) (v : Vault) : CreateResult :=
  let fv := folderPhase normalize req.saveLocation parentFolder v
  let tp := targetPathOf normalize resp.title fv.1
  if vaultHas fv.2 tp then
    { created := none, vault := fv.2, notices := [collisionNotice tp] }
  else
    { created := some tp
    , vault := { fv.2 with
                 files := (tp, parentLinkLine parentPath parentBasename ++ resp.content) :: fv.2.files }
    , notices := [] }

/-! ### Apply / divert (`src/unnamed/part_003` lines 155-204) -/

def wikiLink (target label : Str) : Str :=
  strLit "[[" ++ target ++ strLit "|" ++ label ++ strLit "]]"

/-- The clipboard text of the diversion branch for `create_note`
(`part_003` lines 159-161): `anchorLabel ? [[title|anchorLabel]] :
[[title|snapshot]]`, with the label rendered by template-literal
interpolation. -/
def divertClipboardText (resp : GenerationResponse) (snap : Str) : Str :=
  if jsTruthyOpt resp.anchorLabel then wikiLink resp.title (jsDisplayOpt resp.anchorLabel)
  else wikiLink resp.title snap

/-- The link label of the safe `create_note` path (`part_003` lines
192-194): `anchorLabel && anchorLabel.trim() !== "" ? anchorLabel :
selectedText`.  Calling `.trim()` on a truthy non-string label throws a
`TypeError` (modelled as `.error`), caught by the orchestrator's `catch`. -/
def linkLabelOf (label : Option Json) (selected : Str) : Except Unit Str :=
  match label with
  | none => .ok selected
  | some j =>
    if jsTruthy j then
      match j with
      | .str s => .ok (if (jsTrim s).isEmpty then selected else s)
      | _ => .error ()
    else .ok selected

def noticeDivert : Str := strLit "⚠️ Selection changed. Result copied to clipboard."
def noticeReplaced : Str := strLit "Replaced text with AI generation."
def noticeInserted : Str := strLit "Inserted AI generation after selection."
def noticeFallbackCreated : Str :=
  strLit "AI response was unstructured. Created note with a default title."
def noticeGenerationFailed : Str :=
  strLit "Failed to get a response from Gemini. Check console."

/-- `TFile.basename` of a created path: file name without extension. -/
def basenameOf (p : Str) : Str :=
  let nm := (p.reverse.takeWhile (fun c => c ≠ '/')).reverse
  if '.' ∈ nm then ((nm.reverse.dropWhile (fun c => c ≠ '.')).drop 1).reverse else nm

def noticeCreated (tp : Str) : Str :=
  strLit "Successfully created note: " ++ basenameOf tp

/-- Outcome of the post-response part of one `runGeneration` call:
final editor and vault state, what was written to the clipboard, the path
of a created file, the notices shown, and whether the outer `catch` fired. -/
structure RunOutcome where
  editor : EditorState
  vault : Vault
  clipboard : Option Str
  created : Option Str
  notices : List Str
  errored : Bool

/-- `handleCreateNoteAction` (`part_003` lines 188-204). -/
def handleCreateNoteAction (normalize : Str → Str) (resp : GenerationResponse)
    (req : GenerationRequest) (parentPath parentBasename parentFolder : Str)
    (ed1 : EditorState) (v : Vault) : RunOutcome :=
  let r := createNoteFile normalize resp req parentPath parentBasename parentFolder v
  match r.created with
  | none =>
    { editor := ed1, vault := r.vault, clipboard := none, created := none
    , notices := r.notices, errored := false }
  | some tp =>
    match linkLabelOf resp.anchorLabel req.selectedText with
    | .error _ =>
      { editor := ed1, vault := r.vault, clipboard := none, created := some tp
      , notices := r.notices ++ [noticeGenerationFailed], errored := true }
    | .ok lab =>
      { editor := replaceSelection ed1 (wikiLink tp lab), vault := r.vault, clipboard := none
      , created := some tp
      , notices := r.notices ++ [if resp.isFallback then noticeFallbackCreated else noticeCreated tp]
      , errored := false }

/-- The part of `runGeneration` (`part_003` lines 121-186) that runs after
the transport/parse step produced `resp`: reconcile, then apply or divert. -/
def runGenerationPost (normalize : Str → Str) (req : GenerationRequest)
    (parentPath parentBasename parentFolder : Str) (resp : GenerationResponse)
    (ed : EditorState) (v : Vault) : RunOutcome :=
  let snap := req.selectedText
  match reconcile snap ed with
  | .divert =>
    if req.outputAction = .create_note then
      let cr := createNoteFile normalize resp req parentPath parentBasename parentFolder v
      { editor := ed, vault := cr.vault, clipboard := some (divertClipboardText resp snap)
      , created := cr.created, notices := noticeDivert :: cr.notices, errored := false }
    else
      { editor := ed, vault := v, clipboard := some resp.content, created := none
      , notices := [noticeDivert], errored := false }
  | .safe ed1 =>
    match req.outputAction with
    | .create_note =>
      handleCreateNoteAction normalize resp req parentPath parentBasename parentFolder ed1 v
    | .replace_selection =>
      { editor := replaceSelection ed1 resp.content, vault := v, clipboard := none
      , created := none, notices := [noticeReplaced], errored := false }
    | .insert_after =>
      { editor := replaceSelection ed1 (snap ++ strLit "\n\n" ++ resp.content), vault := v
      , clipboard := none, created := none, notices := [noticeInserted], errored := false }

/-! ### A model of the external `normalizePath` collaborator -/

def consHead (c : Char) : List Str → List Str
  | [] => [[c]]
  | h :: t => (c :: h) :: t

def splitSlash : Str → List Str
  | [] => [[]]
  | c :: rest => if c = '/' then [] :: splitSlash rest else consHead c (splitSlash rest)

def joinSlash : List Str → Str
  | [] => []
  | [p] => p
  | p :: q :: ps => p ++ '/' :: joinSlash (q :: ps)

def slashNorm (c : Char) : Char := if c = '\\' then '/' else c

/-- Model of Obsidian's `normalizePath` (an external collaborator, not
repository code): backslashes become slashes, runs of slashes collapse,
and leading/trailing slashes are removed.  Claims about reconciliation or
collision hold for an arbitrary `normalize`; only the link-mismatch claim
is proved against this model. -/
def normalizePathModel (p : Str) : Str :=
  joinSlash ((splitSlash (p.map slashNorm)).filter (fun s => !s.isEmpty))

/-- `p` is a contiguous substring of `s`. -/
def substringOf (p s : Str) : Prop := ∃ a b, s = a ++ p ++ b

/-! ### Lemmas: occurrences vs. `indexOf` / `lastIndexOf` -/

lemma take_len_eq_imp_le {l pat : Str} (h : l.take pat.length = pat) :
    pat.length ≤ l.length := by
  have := congrArg List.length h
  simp [List.length_take] at this
  omega

lemma occursAt_zero {hay pat : Str} : occursAt hay pat 0 ↔ hay.take pat.length = pat := by
  unfold occursAt
  constructor
  · exact fun h => by simpa using h.2
  · intro h
    exact ⟨by simpa using take_len_eq_imp_le h, by simpa using h⟩

lemma occursAt_succ {c : Char} {hay pat : Str} {i : Nat} :
    occursAt (c :: hay) pat (i + 1) ↔ occursAt hay pat i := by
  unfold occursAt
  rw [List.drop_succ_cons]
  simp only [List.length_cons]
  constructor
  · exact fun h => ⟨by omega, h.2⟩
  · exact fun h => ⟨by omega, h.2⟩

lemma occursAt_nil {pat : Str} {i : Nat} (h : occursAt [] pat i) : pat = [] ∧ i = 0 := by
  rcases h with ⟨hb, he⟩
  simp at hb
  constructor
  · simpa using he.symm.trans (by simp)
  · omega

lemma jsIndexOf_occursAt {pat : Str} :
    ∀ {hay : Str} {k : Nat}, jsIndexOf pat hay = some k → occursAt hay pat k := by
  intro hay
  induction hay with
  | nil =>
    intro k h
    unfold jsIndexOf at h
    split at h
    · rename_i hp
      cases h
      subst hp
      exact ⟨by simp, by simp⟩
    · cases h
  | cons c rest ih =>
    intro k h
    unfold jsIndexOf at h
    split at h
    · rename_i hd
      cases h
      exact occursAt_zero.mpr hd
    · rcases Option.map_eq_some'.mp h with ⟨k', hk', rfl⟩
      exact occursAt_succ.mpr (ih hk')

lemma jsIndexOf_le {pat : Str} :
    ∀ {hay : Str} {k i : Nat}, jsIndexOf pat hay = some k → occursAt hay pat i → k ≤ i := by
  intro hay
  induction hay with
  | nil =>
    intro k i h ho
    rcases occursAt_nil ho with ⟨hp, rfl⟩
    subst hp
    simp [jsIndexOf] at h
    omega
  | cons c rest ih =>
    intro k i h ho
    unfold jsIndexOf at h
    split at h
    · cases h; omega
    · rename_i hd
      rcases Option.map_eq_some'.mp h with ⟨k', hk', rfl⟩
      cases i with
      | zero => exact absurd (occursAt_zero.mp ho) hd
      | succ i' => exact Nat.succ_le_succ (ih hk' (occursAt_succ.mp ho))

lemma jsIndexOf_some_of_occurs {pat : Str} :
    ∀ {hay : Str} {i : Nat}, occursAt hay pat i → ∃ k, jsIndexOf pat hay = some k := by
  intro hay
  induction hay with
  | nil =>
    intro i ho
    rcases occursAt_nil ho with ⟨rfl, rfl⟩
    exact ⟨0, by simp [jsIndexOf]⟩
  | cons c rest ih =>
    intro i ho
    unfold jsIndexOf
    split
    · exact ⟨0, rfl⟩
    · rename_i hd
      cases i with
      | zero => exact absurd (occursAt_zero.mp ho) hd
      | succ i' =>
        rcases ih (occursAt_succ.mp ho) with ⟨k, hk⟩
        exact ⟨k + 1, by rw [hk]; rfl⟩

lemma jsLastIndexOf_occursAt {pat : Str} :
    ∀ {hay : Str} {k : Nat}, jsLastIndexOf pat hay = some k → occursAt hay pat k := by
  intro hay
  induction hay with
  | nil =>
    intro k h
    unfold jsLastIndexOf at h
    split at h
    · rename_i hp
      cases h
      subst hp
      exact ⟨by simp, by simp⟩
    · cases h
  | cons c rest ih =>
    intro k h
    unfold jsLastIndexOf at h
    split at h
    · rename_i k' hk'
      cases h
      exact occursAt_succ.mpr (ih hk')
    · split at h
      · rename_i hd
        cases h
        exact occursAt_zero.mpr hd
      · cases h

lemma jsLastIndexOf_some_of_occurs {pat : Str} :
    ∀ {hay : Str} {i : Nat}, occursAt hay pat i → ∃ k, jsLastIndexOf pat hay = some k := by
  intro hay
  induction hay with
  | nil =>
    intro i ho
    rcases occursAt_nil ho with ⟨rfl, rfl⟩
    exact ⟨0, by simp [jsLastIndexOf]⟩
  | cons c rest ih =>
    intro i ho
    unfold jsLastIndexOf
    cases hrec : jsLastIndexOf pat rest with
    | some k => exact ⟨k + 1, rfl⟩
    | none =>
      cases i with
      | zero =>
        refine ⟨0, ?_⟩
        rw [if_pos (occursAt_zero.mp ho)]
      | succ i' =>
        rcases ih (occursAt_succ.mp ho) with ⟨k, hk⟩
        rw [hrec] at hk
        cases hk

lemma jsLastIndexOf_ge {pat : Str} :
    ∀ {hay : Str} {k i : Nat}, jsLastIndexOf pat hay = some k → occursAt hay pat i → i ≤ k := by
  intro hay
  induction hay with
  | nil =>
    intro k i h ho
    rcases occursAt_nil ho with ⟨_, rfl⟩
    omega
  | cons c rest ih =>
    intro k i h ho
    unfold jsLastIndexOf at h
    split at h
    · rename_i k' hk'
      cases h
      cases i with
      | zero => omega
      | succ i' => exact Nat.succ_le_succ (ih hk' (occursAt_succ.mp ho))
    · rename_i hrec
      split at h
      · cases h
        cases i with
        | zero => omega
        | succ i' =>
          rcases jsLastIndexOf_some_of_occurs (occursAt_succ.mp ho) with ⟨k, hk⟩
          rw [hrec] at hk
          cases hk
      · cases h

/-! ### Lemmas: the recomputed `{line, ch}` span denotes the occurrence -/

lemma nlCount_eq_zero_iff {p : Str} : nlCount p = 0 ↔ '\n' ∉ p := by
  unfold nlCount
  rw [List.countP_eq_zero]
  constructor
  · intro h hm
    have := h _ hm
    simp at this
  · intro h a ha
    simp
    intro he
    exact h (he ▸ ha)

/-- The code's position recomputation (`part_003` lines 141-149) is
correct: interpreting the `{line, ch}` pair computed from the prefix of
length `k` yields offset `k` again. -/
lemma posOfPrefix_roundtrip :
    ∀ (doc : Str) (k : Nat), k ≤ doc.length →
      posToOffset doc (lineOfPrefix (doc.take k)) (chOfPrefix (doc.take k)) = k := by
  intro doc
  induction doc with
  | nil =>
    intro k hk
    simp at hk
    subst hk
    simp [posToOffset, lineOfPrefix, nlCount, chOfPrefix, lineStartOffset]
  | cons c rest ih =>
    intro k hk
    cases k with
    | zero => simp [posToOffset, lineOfPrefix, nlCount, chOfPrefix, lineStartOffset]
    | succ j =>
      have hj : j ≤ rest.length := by simpa using hk
      rw [List.take_succ_cons]
      by_cases hc : c = '\n'
      · subst hc
        have h1 : lineOfPrefix ('\n' :: rest.take j) = nlCount (rest.take j) + 1 := by
          simp [lineOfPrefix, nlCount, List.countP_cons]
        have h2 : chOfPrefix ('\n' :: rest.take j) = chOfPrefix (rest.take j) := by
          simp [chOfPrefix]
        have ih' := ih j hj
        simp only [posToOffset] at ih' ⊢
        rw [h1, h2]
        have h3 : lineStartOffset ('\n' :: rest) (nlCount (rest.take j) + 1)
            = 1 + lineStartOffset rest (nlCount (rest.take j)) := by
          simp [lineStartOffset]
        rw [h3]
        simp only [lineOfPrefix] at ih'
        omega
      · have h1 : lineOfPrefix (c :: rest.take j) = nlCount (rest.take j) := by
          simp [lineOfPrefix, nlCount, List.countP_cons, hc]
        by_cases h0 : nlCount (rest.take j) = 0
        · have hnm : '\n' ∉ rest.take j := nlCount_eq_zero_iff.mp h0
          have h2 : chOfPrefix (c :: rest.take j) = (rest.take j).length + 1 := by
            simp [chOfPrefix, hc, hnm]
          simp only [posToOffset]
          rw [h1, h2, h0]
          have h3 : lineStartOffset (c :: rest) 0 = 0 := by simp [lineStartOffset]
          rw [h3]
          simp [List.length_take]
          omega
        · have hnm : '\n' ∈ rest.take j := by
            by_contra hx
            exact h0 (nlCount_eq_zero_iff.mpr hx)
          have h2 : chOfPrefix (c :: rest.take j) = chOfPrefix (rest.take j) := by
            simp [chOfPrefix, hc, hnm]
          obtain ⟨m, hm⟩ : ∃ m, nlCount (rest.take j) = m + 1 := by
            cases hx : nlCount (rest.take j) with
            | zero => exact absurd hx h0
            | succ m => exact ⟨m, rfl⟩
          have h3 : lineStartOffset (c :: rest) (nlCount (rest.take j))
              = 1 + lineStartOffset rest (nlCount (rest.take j)) := by
            rw [hm]
            simp [lineStartOffset, hc]
          have h1n : nlCount (c :: rest.take j) = nlCount (rest.take j) := by
            simp [nlCount, List.countP_cons, hc]
          have ih' := ih j hj
          simp only [posToOffset, lineOfPrefix] at ih' ⊢
          rw [h1n, h2, h3]
          omega

/-! ### Lemmas: the three verdicts of the verification block -/

lemma reconcile_of_sel_eq {snap : Str} {ed : EditorState} (h : getSel ed = snap) :
    reconcile snap ed = .safe ed := by
  unfold reconcile
  rw [if_pos h]

lemma reconcile_of_unique {snap : Str} {ed : EditorState} {i : Nat}
    (hne : getSel ed ≠ snap) (hocc : occursAt ed.doc snap i)
    (huniq : ∀ j, occursAt ed.doc snap j → j = i) :
    reconcile snap ed = .safe { doc := ed.doc, selFrom := i, selTo := i + snap.length } := by
  obtain ⟨f, hf⟩ := jsIndexOf_some_of_occurs hocc
  rw [huniq f (jsIndexOf_occursAt hf)] at hf
  obtain ⟨l, hl⟩ := jsLastIndexOf_some_of_occurs hocc
  rw [huniq l (jsLastIndexOf_occursAt hl)] at hl
  have hb1 : i ≤ ed.doc.length := by have := hocc.1; omega
  have hb2 : i + snap.length ≤ ed.doc.length := hocc.1
  have e1 := posOfPrefix_roundtrip ed.doc i hb1
  have e2 := posOfPrefix_roundtrip ed.doc (i + snap.length) hb2
  unfold reconcile
  rw [if_neg hne]
  simp [hf, hl, e1, e2]

lemma reconcile_of_zero {snap : Str} {ed : EditorState}
    (hne : getSel ed ≠ snap) (hz : ∀ i, ¬ occursAt ed.doc snap i) :
    reconcile snap ed = .divert := by
  unfold reconcile
  rw [if_neg hne]
  cases hidx : jsIndexOf snap ed.doc with
  | none => simp [hidx]
  | some f => exact absurd (jsIndexOf_occursAt hidx) (hz f)

lemma reconcile_of_multi {snap : Str} {ed : EditorState} {i j : Nat}
    (hne : getSel ed ≠ snap) (hij : i ≠ j)
    (hi : occursAt ed.doc snap i) (hj : occursAt ed.doc snap j) :
    reconcile snap ed = .divert := by
  obtain ⟨f, hf⟩ := jsIndexOf_some_of_occurs hi
  obtain ⟨l, hl⟩ := jsLastIndexOf_some_of_occurs hi
  have h1 := jsIndexOf_le hf hi
  have h2 := jsIndexOf_le hf hj
  have h3 := jsLastIndexOf_ge hl hi
  have h4 := jsLastIndexOf_ge hl hj
  have hfl : f ≠ l := by omega
  have hlf : ¬ l = f := fun hx => hfl hx.symm
  unfold reconcile
  rw [if_neg hne]
  simp [hf, hl, hlf]

/-! ### Claim theorems -/

/-- C1 — Safe-Apply reconciliation (`part_003` lines 123-153).  The
equality check runs first: whenever the current selection equals the
anchor, the verdict is `safe` at the unchanged current position, for
every document content (so no scan of the document can influence the
outcome).  Only when they differ is the document scanned, and if the
anchor occurs exactly once, the recomputed line/column span is installed
as the selection: the new selection covers exactly the occurrence, and
the substring of the document under the new selection equals the anchor. -/
theorem c1_safe_apply_reconciliation (snap : Str) (ed : EditorState) :
    (getSel ed = snap → reconcile snap ed = .safe ed) ∧
    (getSel ed ≠ snap →
      ∀ i, occursAt ed.doc snap i → (∀ j, occursAt ed.doc snap j → j = i) →
        ∃ ed', reconcile snap ed = .safe ed' ∧
          ed'.doc = ed.doc ∧ ed'.selFrom = i ∧ ed'.selTo = i + snap.length ∧
          getSel ed' = snap) := by
  constructor
  · exact reconcile_of_sel_eq
  · intro hne i hocc huniq
    refine ⟨_, reconcile_of_unique hne hocc huniq, rfl, rfl, rfl, ?_⟩
    show (ed.doc.drop i).take (i + snap.length - i) = snap
    have hlen : i + snap.length - i = snap.length := by omega
    rw [hlen]
    exact hocc.2

/-- Witness for C1: a run whose selection still equals the anchor applies
in place even though the anchor occurs twice in the document, and a run
whose selection moved relocates to the unique occurrence of `"cd"`. -/
theorem c1_safe_apply_reconciliation_witness :
    (reconcile (strLit "ab") { doc := strLit "ab ab", selFrom := 0, selTo := 2 }
      = .safe { doc := strLit "ab ab", selFrom := 0, selTo := 2 }) ∧
    (∃ ed', reconcile (strLit "cd") { doc := strLit "ab cd", selFrom := 0, selTo := 1 }
        = .safe ed' ∧
      ed'.doc = strLit "ab cd" ∧ ed'.selFrom = 3 ∧ ed'.selTo = 3 + (strLit "cd").length ∧
      getSel ed' = strLit "cd") := by
  constructor
  · exact (c1_safe_apply_reconciliation (strLit "ab")
      { doc := strLit "ab ab", selFrom := 0, selTo := 2 }).1 (by decide)
  · refine (c1_safe_apply_reconciliation (strLit "cd")
      { doc := strLit "ab cd", selFrom := 0, selTo := 1 }).2 (by decide) 3 (by decide) ?_
    intro j hj
    have hb := hj.1
    have h2 : (strLit "cd").length = 2 := rfl
    have h5 : (strLit "ab cd").length = 5 := rfl
    rw [h2] at hb
    have h5' : ({ doc := strLit "ab cd", selFrom := 0, selTo := 1 : EditorState }).doc.length = 5 := rfl
    rw [h5'] at hb
    have hj3 : j ≤ 3 := by omega
    interval_cases j <;> revert hj <;> decide

/-- C2 — Safe-Apply ambiguity diversion (`part_003` lines 128-168).  When
the current selection differs from the anchor and the anchor occurs zero
times, or at two distinct positions, in the document, the run diverts:
the editor state (in particular the document text) is exactly the state
at reconciliation time, and the clipboard receives the result — the raw
`content` for the in-place modes, the link text for `create_note`. -/
theorem c2_ambiguity_divert (normalize : Str → Str) (req : GenerationRequest)
    (parentPath parentBasename parentFolder : Str) (resp : GenerationResponse)
    (ed : EditorState) (v : Vault)
    (hne : getSel ed ≠ req.selectedText)
    (hamb : (∀ i, ¬ occursAt ed.doc req.selectedText i) ∨
            (∃ i j, i ≠ j ∧ occursAt ed.doc req.selectedText i ∧
              occursAt ed.doc req.selectedText j)) :
    (runGenerationPost normalize req parentPath parentBasename parentFolder resp ed v).editor
        = ed ∧
    (runGenerationPost normalize req parentPath parentBasename parentFolder resp ed v).clipboard
        = some (if req.outputAction = .create_note
                then divertClipboardText resp req.selectedText else resp.content) := by
  have hdiv : reconcile req.selectedText ed = .divert := by
    rcases hamb with hz | ⟨i, j, hij, hi, hj⟩
    · exact reconcile_of_zero hne hz
    · exact reconcile_of_multi hne hij hi hj
  by_cases hca : req.outputAction = .create_note <;>
    simp [runGenerationPost, hdiv, hca]

/-- Witness for C2: selection moved and the anchor `"aa"` no longer occurs
in the document; an in-place run leaves the document untouched and copies
the raw content. -/
theorem c2_ambiguity_divert_witness :
    (runGenerationPost (fun s => s)
      { instructionPath := [], instructionContent := [], contextType := .selection_only
      , saveLocation := [], selectedText := strLit "aa", contextBefore := []
      , contextAfter := [], parentNoteContent := [], parentNoteTitle := []
      , backgroundContext := [], outputAction := .replace_selection }
      [] [] [] { title := [], content := strLit "OUT", anchorLabel := none, isFallback := false }
      { doc := strLit "xy", selFrom := 0, selTo := 1 }
      { files := [], folders := [] }).editor = { doc := strLit "xy", selFrom := 0, selTo := 1 } ∧
    (runGenerationPost (fun s => s)
      { instructionPath := [], instructionContent := [], contextType := .selection_only
      , saveLocation := [], selectedText := strLit "aa", contextBefore := []
      , contextAfter := [], parentNoteContent := [], parentNoteTitle := []
      , backgroundContext := [], outputAction := .replace_selection }
      [] [] [] { title := [], content := strLit "OUT", anchorLabel := none, isFallback := false }
      { doc := strLit "xy", selFrom := 0, selTo := 1 }
      { files := [], folders := [] }).clipboard = some (strLit "OUT") := by
  have hz : ∀ i, ¬ occursAt (strLit "xy") (strLit "aa") i := by
    intro i hi
    have hb := hi.1
    have h2 : (strLit "aa").length = 2 := rfl
    have h2' : (strLit "xy").length = 2 := rfl
    rw [h2, h2'] at hb
    have hi0 : i = 0 := by omega
    subst hi0
    revert hi
    decide
  exact c2_ambiguity_divert (fun s => s) _ [] [] []
    { title := [], content := strLit "OUT", anchorLabel := none, isFallback := false }
    { doc := strLit "xy", selFrom := 0, selTo := 1 } { files := [], folders := [] }
    (by decide) (Or.inl hz)

/-! ### Lemmas: the tier structure of `parseResponse` -/

lemma parseResponse_true_of_t1 {raw : Str} {p : Json}
    (hp : jsonParse (cleanJsonOf raw) = some p) (hv : isValidResponse p = true) :
    parseResponse raw true = mkStructured p := by
  unfold parseResponse
  simp [hp, hv]

lemma parseResponse_true_t1none {raw : Str}
    (hp : jsonParse (cleanJsonOf raw) = none) :
    parseResponse raw true = tier2Phase raw := by
  unfold parseResponse
  simp [hp]

lemma parseResponse_true_t1invalid {raw : Str} {p : Json}
    (hp : jsonParse (cleanJsonOf raw) = some p) (hv : isValidResponse p = false) :
    parseResponse raw true = tier2Phase raw := by
  unfold parseResponse
  simp [hp, hv]

lemma tier2Phase_of_valid {raw sub : Str} {p : Json}
    (hs : tier2Sub raw = some sub) (hp : jsonParse sub = some p)
    (hv : isValidResponse p = true) :
    tier2Phase raw = mkStructured p := by
  unfold tier2Phase
  simp [hs, hp, hv]

lemma tier2Phase_fallback {raw : Str}
    (h : ∀ sub p, tier2Sub raw = some sub → jsonParse sub = some p →
      isValidResponse p = false) :
    tier2Phase raw = fallbackResp raw := by
  unfold tier2Phase
  cases hs : tier2Sub raw with
  | none => rfl
  | some sub =>
    cases hp : jsonParse sub with
    | none => simp [hp]
    | some p => simp [hp, h sub p hs hp]

lemma tier2Phase_isFallback_false {raw : Str}
    (h : (tier2Phase raw).isFallback = false) :
    ∃ sub p, tier2Sub raw = some sub ∧ jsonParse sub = some p ∧
      isValidResponse p = true := by
  by_cases hall : ∀ sub p, tier2Sub raw = some sub → jsonParse sub = some p →
      isValidResponse p = false
  · rw [tier2Phase_fallback hall] at h
    simp [fallbackResp] at h
  · push_neg at hall
    obtain ⟨sub, p, hs, hp, hv⟩ := hall
    exact ⟨sub, p, hs, hp, by simpa using hv⟩

/-- C3 — fallback-tier postcondition (`part_006` lines 149-203).  If
neither structured tier yields a candidate accepted by `isValidResponse`,
`parse(raw, true)` is exactly the fallback response: the fixed non-empty
placeholder title and `content` the raw input, byte for byte (not the
trimmed `textToParse`).  Conversely a non-fallback result can only come
from one of the two structured tiers, and the in-place mode always
returns `isFallback = false`. -/
theorem c3_fallback_tier (raw : Str) :
    ((∀ p, jsonParse (cleanJsonOf raw) = some p → isValidResponse p = false) →
     (∀ sub p, tier2Sub raw = some sub → jsonParse sub = some p →
        isValidResponse p = false) →
     parseResponse raw true = fallbackResp raw) ∧
    (fallbackResp raw).title ≠ [] ∧
    (fallbackResp raw).content = raw ∧
    ((parseResponse raw true).isFallback = false →
      (∃ p, jsonParse (cleanJsonOf raw) = some p ∧ isValidResponse p = true) ∨
      (∃ sub p, tier2Sub raw = some sub ∧ jsonParse sub = some p ∧
        isValidResponse p = true)) ∧
    (parseResponse raw false).isFallback = false := by
  refine ⟨?_, by simp [fallbackResp, strLit], rfl, ?_, ?_⟩
  · intro h1 h2
    cases hp : jsonParse (cleanJsonOf raw) with
    | none => rw [parseResponse_true_t1none hp, tier2Phase_fallback h2]
    | some p =>
      rw [parseResponse_true_t1invalid hp (h1 p hp), tier2Phase_fallback h2]
  · intro hf
    cases hp : jsonParse (cleanJsonOf raw) with
    | none =>
      rw [parseResponse_true_t1none hp] at hf
      exact Or.inr (tier2Phase_isFallback_false hf)
    | some p =>
      by_cases hv : isValidResponse p
      · exact Or.inl ⟨p, rfl, hv⟩
      · rw [parseResponse_true_t1invalid hp (by simpa using hv)] at hf
        exact Or.inr (tier2Phase_isFallback_false hf)
  · unfold parseResponse
    cases h : fenceAny (jsTrim raw) <;> simp [h]

/-- Witness for C3: `"hello"` has no structured parse in either tier, so
the result is the fallback response. -/
theorem c3_fallback_tier_witness :
    parseResponse (strLit "hello") true = fallbackResp (strLit "hello") :=
  (c3_fallback_tier (strLit "hello")).1
    (fun _p hp =>
      Option.noConfusion ((show jsonParse (cleanJsonOf (strLit "hello")) = none from rfl) ▸ hp))
    (fun _sub _p hs _ =>
      Option.noConfusion ((show tier2Sub (strLit "hello") = none from rfl) ▸ hs))

/-! ### Lemmas: trimming and fence-stripping produce substrings -/

lemma substringOf_trans {p q s : Str} (h1 : substringOf p q) (h2 : substringOf q s) :
    substringOf p s := by
  obtain ⟨a, b, rfl⟩ := h1
  obtain ⟨c, d, rfl⟩ := h2
  exact ⟨c ++ a, b ++ d, by simp⟩

lemma trimLeft_decomp (s : Str) : s = s.takeWhile jsWsChar ++ trimLeft s :=
  (List.takeWhile_append_dropWhile jsWsChar s).symm

lemma trimRight_decomp (s : Str) :
    s = trimRight s ++ (s.reverse.takeWhile jsWsChar).reverse := by
  unfold trimRight
  conv_lhs => rw [← List.reverse_reverse s]
  rw [← List.reverse_append]
  congr 1
  exact (List.takeWhile_append_dropWhile jsWsChar s.reverse).symm

lemma trim_substringOf (s : Str) : substringOf (jsTrim s) s := by
  have h1 : substringOf (jsTrim s) (trimLeft s) :=
    ⟨[], (((trimLeft s).reverse.takeWhile jsWsChar).reverse), by
      simpa using trimRight_decomp (trimLeft s)⟩
  have h2 : substringOf (trimLeft s) s :=
    ⟨s.takeWhile jsWsChar, [], by simpa using trimLeft_decomp s⟩
  exact substringOf_trans h1 h2

lemma take_drop_substringOf (s : Str) (a b : Nat) : substringOf ((s.drop a).take b) s := by
  refine ⟨s.take a, (s.drop a).drop b, ?_⟩
  rw [List.append_assoc, List.take_append_drop, List.take_append_drop]

lemma fenceCore_substringOf {tagLen : Nat} {s inner : Str}
    (h : fenceCore tagLen s = some inner) : substringOf inner s := by
  unfold fenceCore at h
  split at h
  · cases h
    exact take_drop_substringOf s (3 + tagLen) (s.length - 3 - (3 + tagLen))
  · cases h

lemma jsTruthy_of_stringProp {p : Json} {k : Str}
    (h : isStringVal (propGet p k) = true) : jsTruthy p = true := by
  cases p <;> simp [propGet, isStringVal, jsTruthy] at h ⊢

/-- C4 counterexample: the candidate `{"title":"","content":""}` has empty
title and empty content, yet `parse(raw, true)` accepts it as a
non-fallback response instead of rejecting it — `isValidResponse` checks
only that the two fields are strings, not that they are non-empty. -/
theorem c4_empty_fields_accepted_cex :
    (parseResponse (strLit "\x7b\"title\":\"\",\"content\":\"\"\x7d") true).isFallback
        = false ∧
    (parseResponse (strLit "\x7b\"title\":\"\",\"content\":\"\"\x7d") true).title = [] ∧
    (parseResponse (strLit "\x7b\"title\":\"\",\"content\":\"\"\x7d") true).content = [] :=
  ⟨rfl, rfl, rfl⟩

/-- C4 (amended) — structured-parse validation (`part_006` lines
205-209): a tier-1 candidate is accepted as the non-fallback response iff
it is truthy and its `title` and `content` are string-typed; string-typed
fields suffice even when empty, and `anchorLabel` is carried through
unchecked.  (Since a candidate with a string-typed property must be an
object, truthiness follows and is not an extra condition.) -/
theorem c4_validation_amended (raw : Str) (p : Json)
    (hp : jsonParse (cleanJsonOf raw) = some p)
    (ht : isStringVal (propGet p keyTitle) = true)
    (hc : isStringVal (propGet p keyContent) = true) :
    parseResponse raw true =
      { title := strOfVal (propGet p keyTitle)
      , content := strOfVal (propGet p keyContent)
      , anchorLabel := propGet p keyAnchorLabel
      , isFallback := false } := by
  have hv : isValidResponse p = true := by
    unfold isValidResponse
    rw [jsTruthy_of_stringProp ht, ht, hc]
    rfl
  rw [parseResponse_true_of_t1 hp hv]
  rfl

/-- Witness for C4 (amended): a candidate with empty title and content is
returned as a non-fallback response with those empty fields. -/
theorem c4_validation_amended_witness :
    parseResponse (strLit "\x7b\"title\":\"\",\"content\":\"\"\x7d") true =
      { title := [], content := [], anchorLabel := none, isFallback := false } :=
  c4_validation_amended (strLit "\x7b\"title\":\"\",\"content\":\"\"\x7d")
    (Json.obj [(strLit "title", Json.str []), (strLit "content", Json.str [])])
    rfl rfl rfl

/-- C5 counterexample: for the in-place mode, the input `" hi "` contains
no code fence, yet `parse(" hi ", false)` returns `"hi"`, not the input
unchanged — the in-place path always trims the text (and trims the fence
interior), so the content is not byte-for-byte verbatim. -/
theorem c5_inplace_trim_cex :
    (parseResponse (strLit " hi ") false).content = strLit "hi" ∧
    strLit "hi" ≠ strLit " hi " ∧
    (strLit " hi ").take 3 ≠ fenceMarker :=
  ⟨rfl, by decide, by decide⟩

/-- C5 (amended) — in-place parse postcondition (`part_006` lines
149-160): `parse(raw, false)` always returns `title = ""` and
`isFallback = false`, and its `content` is the whitespace-trimmed input
when the trimmed input is not fence-enclosed, or the whitespace-trimmed
fence interior when it is; in either case the content is a contiguous
substring of the raw input (nothing inside it is altered). -/
theorem c5_inplace_amended (raw : Str) :
    (parseResponse raw false).title = [] ∧
    (parseResponse raw false).isFallback = false ∧
    (parseResponse raw false).content =
      (match fenceAny (jsTrim raw) with
       | some inner => jsTrim inner
       | none => jsTrim raw) ∧
    substringOf (parseResponse raw false).content raw := by
  have hc : (parseResponse raw false).content =
      (match fenceAny (jsTrim raw) with
       | some inner => jsTrim inner
       | none => jsTrim raw) := by
    unfold parseResponse
    cases h : fenceAny (jsTrim raw) <;> simp [h]
  refine ⟨?_, ?_, hc, ?_⟩
  · unfold parseResponse
    cases h : fenceAny (jsTrim raw) <;> simp [h]
  · unfold parseResponse
    cases h : fenceAny (jsTrim raw) <;> simp [h]
  · rw [hc]
    cases h : fenceAny (jsTrim raw) with
    | none => exact trim_substringOf raw
    | some inner =>
      have h1 : substringOf inner (jsTrim raw) := fenceCore_substringOf h
      exact substringOf_trans (substringOf_trans (trim_substringOf inner) h1)
        (trim_substringOf raw)

/-- C10 — `anchorLabel` is not validated (`part_006` lines 169-196 and
205-209): whenever a tier's candidate has string-typed `title` and
`content`, the response is non-fallback and its `anchorLabel` field is
exactly `parsed.anchorLabel` — whatever JSON value the key holds,
including a missing key (`undefined`), the empty string, a number, an
object, or `null` — with no type or non-emptiness check applied. -/
theorem c10_anchorlabel_passthrough (raw : Str) (p : Json)
    (ht : isStringVal (propGet p keyTitle) = true)
    (hc : isStringVal (propGet p keyContent) = true) :
    (jsonParse (cleanJsonOf raw) = some p →
      (parseResponse raw true).isFallback = false ∧
      (parseResponse raw true).anchorLabel = propGet p keyAnchorLabel) ∧
    (jsonParse (cleanJsonOf raw) = none →
      ∀ sub, tier2Sub raw = some sub → jsonParse sub = some p →
        (parseResponse raw true).isFallback = false ∧
        (parseResponse raw true).anchorLabel = propGet p keyAnchorLabel) := by
  have hv : isValidResponse p = true := by
    unfold isValidResponse
    rw [jsTruthy_of_stringProp ht, ht, hc]
    rfl
  constructor
  · intro hp
    rw [parseResponse_true_of_t1 hp hv]
    exact ⟨rfl, rfl⟩
  · intro hnone sub hs hp
    rw [parseResponse_true_t1none hnone, tier2Phase_of_valid hs hp hv]
    exact ⟨rfl, rfl⟩

/-- Witness for C10: a numeric `anchorLabel` (`5`) and a `null`
`anchorLabel` are both carried through verbatim in a non-fallback
response. -/
theorem c10_anchorlabel_passthrough_witness :
    ((parseResponse (strLit "\x7b\"title\":\"t\",\"content\":\"c\",\"anchorLabel\":5\x7d")
        true).anchorLabel = some (Json.num (strLit "5")) ∧
     (parseResponse (strLit "\x7b\"title\":\"t\",\"content\":\"c\",\"anchorLabel\":5\x7d")
        true).isFallback = false) ∧
    (parseResponse (strLit "\x7b\"title\":\"t\",\"content\":\"c\",\"anchorLabel\":null\x7d")
        true).anchorLabel = some Json.null := by
  refine ⟨⟨?_, ?_⟩, ?_⟩
  · exact ((c10_anchorlabel_passthrough
      (strLit "\x7b\"title\":\"t\",\"content\":\"c\",\"anchorLabel\":5\x7d")
      (Json.obj [(strLit "title", Json.str (strLit "t")),
                 (strLit "content", Json.str (strLit "c")),
                 (strLit "anchorLabel", Json.num (strLit "5"))])
      rfl rfl).1 rfl).2
  · exact ((c10_anchorlabel_passthrough
      (strLit "\x7b\"title\":\"t\",\"content\":\"c\",\"anchorLabel\":5\x7d")
      (Json.obj [(strLit "title", Json.str (strLit "t")),
                 (strLit "content", Json.str (strLit "c")),
                 (strLit "anchorLabel", Json.num (strLit "5"))])
      rfl rfl).1 rfl).1
  · exact ((c10_anchorlabel_passthrough
      (strLit "\x7b\"title\":\"t\",\"content\":\"c\",\"anchorLabel\":null\x7d")
      (Json.obj [(strLit "title", Json.str (strLit "t")),
                 (strLit "content", Json.str (strLit "c")),
                 (strLit "anchorLabel", Json.null)])
      rfl rfl).1 rfl).2

/-- C6 counterexample: on the managed SDK path, a response with a missing
(`undefined`) or empty `text` is returned as a *successful* empty string
(`response.text || ""`, `part_006` line 103), not surfaced as an error —
unlike the custom-host path, which throws on an empty extracted text. -/
theorem c6_sdk_empty_success_cex :
    generateWithSdk (.success none) = .ok [] ∧
    generateWithSdk (.success (some [])) = .ok [] :=
  ⟨rfl, rfl⟩

lemma customHost_ok_truthy {st : Nat} {body j : Json}
    (h : generateWithCustomHost (.httpResponse st body) = .ok j) :
    jsTruthy j = true := by
  simp only [generateWithCustomHost] at h
  split at h
  · cases h
  · split at h
    · cases h
    · split at h
      · split at h
        · rename_i ht
          cases h
          exact ht
        · cases h
      · cases h

/-- C6 (amended) — transport failure contract (`part_006` lines 96-147).
Provider rejections are surfaced as errors on both paths, and the
custom-host path fails on status ≥ 400 and on a missing/empty (falsy)
extracted text — it never returns a successful empty string.  The managed
SDK path, however, converts a missing or empty `response.text` into a
*successful* empty string rather than failing. -/
theorem c6_transport_amended :
    (∀ m, generateWithSdk (.failure m) = .error (.sdk m)) ∧
    (∀ t, generateWithSdk (.success t) = .ok (t.getD [])) ∧
    (∀ m, generateWithCustomHost (.netError m) = .error (.network m)) ∧
    (∀ st body, 400 ≤ st →
      generateWithCustomHost (.httpResponse st body) = .error (.http st body)) ∧
    (∀ r j, generateWithCustomHost r = .ok j → jsTruthy j = true ∧ j ≠ Json.str []) := by
  refine ⟨fun m => rfl, fun t => rfl, fun m => rfl, ?_, ?_⟩
  · intro st body hst
    simp only [generateWithCustomHost]
    rw [if_pos hst]
  · intro r j h
    cases r with
    | netError m => cases h
    | httpResponse st body =>
      have ht := customHost_ok_truthy h
      refine ⟨ht, ?_⟩
      intro hj
      rw [hj] at ht
      simp [jsTruthy] at ht

/-- Witness for C6 (amended): a 500 response fails, and a well-formed body
whose candidate text is `"ok"` succeeds with a truthy non-empty text. -/
theorem c6_transport_amended_witness :
    generateWithCustomHost (.httpResponse 500 (Json.obj [])) =
      .error (.http 500 (Json.obj [])) ∧
    (jsTruthy (Json.str (strLit "ok")) = true ∧ Json.str (strLit "ok") ≠ Json.str []) := by
  constructor
  · exact c6_transport_amended.2.2.2.1 500 (Json.obj []) (by omega)
  · exact c6_transport_amended.2.2.2.2
      (.httpResponse 200
        (Json.obj [(strLit "candidates", Json.arr
          [Json.obj [(strLit "content", Json.obj
            [(strLit "parts", Json.arr
              [Json.obj [(strLit "text", Json.str (strLit "ok"))]])])]])]))
      (Json.str (strLit "ok")) rfl

/-! ### Lemmas: folder resolution touches only folders -/

lemma folderPhase_files (normalize : Str → Str) (saveLocation parentFolder : Str) (v : Vault) :
    (folderPhase normalize saveLocation parentFolder v).2.files = v.files := by
  unfold folderPhase
  split
  · by_cases hv : vaultHas v (normalize saveLocation) = true
    · simp [hv]
    · simp [hv]
  · rfl

lemma lookupFile_files_eq {v w : Vault} (h : v.files = w.files) (p : Str) :
    lookupFile v p = lookupFile w p := by
  unfold lookupFile
  rw [h]

/-- C7 counterexample: a `create_note` run whose reconciliation fails
(selection changed, anchor `"a"` vanished) and whose target path
`notes/T.md` is already occupied creates *no* document — the generated
content is discarded and only the clipboard link survives — whereas the
claim says the new document is still created on every diverted run. -/
theorem c7_collision_discard_cex :
    reconcile (strLit "a") { doc := strLit "b", selFrom := 0, selTo := 1 } =
      .divert ∧
    (runGenerationPost (fun s => s)
      { instructionPath := [], instructionContent := [], contextType := .selection_only
      , saveLocation := [], selectedText := strLit "a", contextBefore := []
      , contextAfter := [], parentNoteContent := [], parentNoteTitle := []
      , backgroundContext := [], outputAction := .create_note }
      (strLit "notes/src.md") (strLit "src") (strLit "notes")
      { title := strLit "T", content := strLit "body", anchorLabel := none, isFallback := false }
      { doc := strLit "b", selFrom := 0, selTo := 1 }
      { files := [(strLit "notes/T.md", strLit "old")], folders := [strLit "notes"] }).created
        = none ∧
    (runGenerationPost (fun s => s)
      { instructionPath := [], instructionContent := [], contextType := .selection_only
      , saveLocation := [], selectedText := strLit "a", contextBefore := []
      , contextAfter := [], parentNoteContent := [], parentNoteTitle := []
      , backgroundContext := [], outputAction := .create_note }
      (strLit "notes/src.md") (strLit "src") (strLit "notes")
      { title := strLit "T", content := strLit "body", anchorLabel := none, isFallback := false }
      { doc := strLit "b", selFrom := 0, selTo := 1 }
      { files := [(strLit "notes/T.md", strLit "old")], folders := [strLit "notes"] }).vault.files
        = [(strLit "notes/T.md", strLit "old")] :=
  ⟨rfl, rfl, rfl⟩

/-- C7 (amended) — CreateNote diversion (`part_003` lines 155-168 and
206-227): on every diverted `create_note` run the orchestrator still
calls `createNoteFile`; *provided no file or folder occupies the composed
target path*, the new document is created with the generated content
(prefixed by the backlink line), the source document is untouched, and a
link built from the response title is copied to the clipboard instead of
being inserted.  (When the target path is occupied, creation is aborted
by the collision rule and only the clipboard link is produced.) -/
theorem c7_divert_create_amended (normalize : Str → Str) (req : GenerationRequest)
    (parentPath parentBasename parentFolder : Str) (resp : GenerationResponse)
    (ed : EditorState) (v : Vault)
    (hca : req.outputAction = .create_note)
    (hne : getSel ed ≠ req.selectedText)
    (hamb : (∀ i, ¬ occursAt ed.doc req.selectedText i) ∨
            (∃ i j, i ≠ j ∧ occursAt ed.doc req.selectedText i ∧
              occursAt ed.doc req.selectedText j))
    (hfree : vaultHas (folderPhase normalize req.saveLocation parentFolder v).2
        (targetPathOf normalize resp.title
          (folderPhase normalize req.saveLocation parentFolder v).1) = false) :
    (runGenerationPost normalize req parentPath parentBasename parentFolder resp ed v).created
        = some (targetPathOf normalize resp.title
            (folderPhase normalize req.saveLocation parentFolder v).1) ∧
    lookupFile
        (runGenerationPost normalize req parentPath parentBasename parentFolder resp ed v).vault
        (targetPathOf normalize resp.title
          (folderPhase normalize req.saveLocation parentFolder v).1)
      = some (parentLinkLine parentPath parentBasename ++ resp.content) ∧
    (runGenerationPost normalize req parentPath parentBasename parentFolder resp ed v).editor
        = ed ∧
    (runGenerationPost normalize req parentPath parentBasename parentFolder resp ed v).clipboard
        = some (divertClipboardText resp req.selectedText) := by
  have hdiv : reconcile req.selectedText ed = .divert := by
    rcases hamb with hz | ⟨i, j, hij, hi, hj⟩
    · exact reconcile_of_zero hne hz
    · exact reconcile_of_multi hne hij hi hj
  have hcr : createNoteFile normalize resp req parentPath parentBasename parentFolder v =
      { created := some (targetPathOf normalize resp.title
          (folderPhase normalize req.saveLocation parentFolder v).1)
      , vault := { (folderPhase normalize req.saveLocation parentFolder v).2 with
                   files := (targetPathOf normalize resp.title
                       (folderPhase normalize req.saveLocation parentFolder v).1,
                     parentLinkLine parentPath parentBasename ++ resp.content) ::
                     (folderPhase normalize req.saveLocation parentFolder v).2.files }
      , notices := [] } := by
    simp [createNoteFile, hfree]
  simp only [runGenerationPost, hdiv, hca, if_pos, hcr]
  simp [lookupFile, List.find?]

/-- Witness for C7 (amended): a diverted `create_note` run against an
empty vault creates `notes/T.md` with the backlink header plus the
generated body, leaves the source document untouched, and copies the
title link. -/
theorem c7_divert_create_amended_witness :
    (runGenerationPost (fun s => s)
      { instructionPath := [], instructionContent := [], contextType := .selection_only
      , saveLocation := [], selectedText := strLit "aa", contextBefore := []
      , contextAfter := [], parentNoteContent := [], parentNoteTitle := []
      , backgroundContext := [], outputAction := .create_note }
      (strLit "notes/src.md") (strLit "src") (strLit "notes")
      { title := strLit "T", content := strLit "body", anchorLabel := none, isFallback := false }
      { doc := strLit "xy", selFrom := 0, selTo := 1 }
      { files := [], folders := [] }).created = some (strLit "notes/T.md") ∧
    lookupFile (runGenerationPost (fun s => s)
      { instructionPath := [], instructionContent := [], contextType := .selection_only
      , saveLocation := [], selectedText := strLit "aa", contextBefore := []
      , contextAfter := [], parentNoteContent := [], parentNoteTitle := []
      , backgroundContext := [], outputAction := .create_note }
      (strLit "notes/src.md") (strLit "src") (strLit "notes")
      { title := strLit "T", content := strLit "body", anchorLabel := none, isFallback := false }
      { doc := strLit "xy", selFrom := 0, selTo := 1 }
      { files := [], folders := [] }).vault (strLit "notes/T.md")
      = some (strLit "Generated from: [[notes/src.md|src]]\n\n---\n\nbody") ∧
    (runGenerationPost (fun s => s)
      { instructionPath := [], instructionContent := [], contextType := .selection_only
      , saveLocation := [], selectedText := strLit "aa", contextBefore := []
      , contextAfter := [], parentNoteContent := [], parentNoteTitle := []
      , backgroundContext := [], outputAction := .create_note }
      (strLit "notes/src.md") (strLit "src") (strLit "notes")
      { title := strLit "T", content := strLit "body", anchorLabel := none, isFallback := false }
      { doc := strLit "xy", selFrom := 0, selTo := 1 }
      { files := [], folders := [] }).editor = { doc := strLit "xy", selFrom := 0, selTo := 1 } := by
  have hz : ∀ i, ¬ occursAt (strLit "xy") (strLit "aa") i := by
    intro i hi
    have hb := hi.1
    have h2 : (strLit "aa").length = 2 := rfl
    have h2' : (strLit "xy").length = 2 := rfl
    rw [h2, h2'] at hb
    have hi0 : i = 0 := by omega
    subst hi0
    revert hi
    decide
  have h := c7_divert_create_amended (fun s => s)
    { instructionPath := [], instructionContent := [], contextType := .selection_only
    , saveLocation := [], selectedText := strLit "aa", contextBefore := []
    , contextAfter := [], parentNoteContent := [], parentNoteTitle := []
    , backgroundContext := [], outputAction := .create_note }
    (strLit "notes/src.md") (strLit "src") (strLit "notes")
    { title := strLit "T", content := strLit "body", anchorLabel := none, isFallback := false }
    { doc := strLit "xy", selFrom := 0, selTo := 1 }
    { files := [], folders := [] }
    rfl (by decide) (Or.inl hz) rfl
  exact ⟨h.1, h.2.1, h.2.2.1⟩

/-- C8 — collision safety (`part_003` lines 206-227).  When a document
already exists at the composed target path, `createNoteFile` returns no
document, shows exactly the collision warning, and leaves the vault's
files — in particular the existing document's content — unchanged. -/
theorem c8_collision_abort (normalize : Str → Str) (resp : GenerationResponse)
    (req : GenerationRequest) (parentPath parentBasename parentFolder : Str)
    (v : Vault) (c : Str)
    (hexist : lookupFile v (targetPathOf normalize resp.title
        (folderPhase normalize req.saveLocation parentFolder v).1) = some c) :
    (createNoteFile normalize resp req parentPath parentBasename parentFolder v).created
        = none ∧
    (createNoteFile normalize resp req parentPath parentBasename parentFolder v).vault.files
        = v.files ∧
    lookupFile (createNoteFile normalize resp req parentPath parentBasename parentFolder v).vault
        (targetPathOf normalize resp.title
          (folderPhase normalize req.saveLocation parentFolder v).1) = some c ∧
    (createNoteFile normalize resp req parentPath parentBasename parentFolder v).notices
        = [collisionNotice (targetPathOf normalize resp.title
            (folderPhase normalize req.saveLocation parentFolder v).1)] := by
  have hfiles := folderPhase_files normalize req.saveLocation parentFolder v
  have hlook : lookupFile (folderPhase normalize req.saveLocation parentFolder v).2
      (targetPathOf normalize resp.title
        (folderPhase normalize req.saveLocation parentFolder v).1) = some c := by
    rw [lookupFile_files_eq hfiles]
    exact hexist
  have hhas : vaultHas (folderPhase normalize req.saveLocation parentFolder v).2
      (targetPathOf normalize resp.title
        (folderPhase normalize req.saveLocation parentFolder v).1) = true := by
    simp [vaultHas, hlook]
  have hcr : createNoteFile normalize resp req parentPath parentBasename parentFolder v =
      { created := none
      , vault := (folderPhase normalize req.saveLocation parentFolder v).2
      , notices := [collisionNotice (targetPathOf normalize resp.title
          (folderPhase normalize req.saveLocation parentFolder v).1)] } := by
    simp [createNoteFile, hhas]
  rw [hcr]
  exact ⟨rfl, hfiles, hlook, rfl⟩

/-- Witness for C8: creating note `T` when `notes/T.md` already holds
`"old"` aborts and preserves the old content. -/
theorem c8_collision_abort_witness :
    (createNoteFile (fun s => s)
      { title := strLit "T", content := strLit "new", anchorLabel := none, isFallback := false }
      { instructionPath := [], instructionContent := [], contextType := .selection_only
      , saveLocation := [], selectedText := [], contextBefore := []
      , contextAfter := [], parentNoteContent := [], parentNoteTitle := []
      , backgroundContext := [], outputAction := .create_note }
      (strLit "notes/src.md") (strLit "src") (strLit "notes")
      { files := [(strLit "notes/T.md", strLit "old")], folders := [] }).created = none ∧
    (createNoteFile (fun s => s)
      { title := strLit "T", content := strLit "new", anchorLabel := none, isFallback := false }
      { instructionPath := [], instructionContent := [], contextType := .selection_only
      , saveLocation := [], selectedText := [], contextBefore := []
      , contextAfter := [], parentNoteContent := [], parentNoteTitle := []
      , backgroundContext := [], outputAction := .create_note }
      (strLit "notes/src.md") (strLit "src") (strLit "notes")
      { files := [(strLit "notes/T.md", strLit "old")], folders := [] }).vault.files
        = [(strLit "notes/T.md", strLit "old")] ∧
    lookupFile (createNoteFile (fun s => s)
      { title := strLit "T", content := strLit "new", anchorLabel := none, isFallback := false }
      { instructionPath := [], instructionContent := [], contextType := .selection_only
      , saveLocation := [], selectedText := [], contextBefore := []
      , contextAfter := [], parentNoteContent := [], parentNoteTitle := []
      , backgroundContext := [], outputAction := .create_note }
      (strLit "notes/src.md") (strLit "src") (strLit "notes")
      { files := [(strLit "notes/T.md", strLit "old")], folders := [] }).vault
      (strLit "notes/T.md") = some (strLit "old") := by
  have h := c8_collision_abort (fun s => s)
    { title := strLit "T", content := strLit "new", anchorLabel := none, isFallback := false }
    { instructionPath := [], instructionContent := [], contextType := .selection_only
    , saveLocation := [], selectedText := [], contextBefore := []
    , contextAfter := [], parentNoteContent := [], parentNoteTitle := []
    , backgroundContext := [], outputAction := .create_note }
    (strLit "notes/src.md") (strLit "src") (strLit "notes")
    { files := [(strLit "notes/T.md", strLit "old")], folders := [] }
    (strLit "old") rfl
  exact ⟨h.1, h.2.1, h.2.2.1⟩

/-! ### Lemmas: the normalized target path keeps its `{safeTitle}.md` tail -/

lemma consHead_ne_nil (c : Char) (l : List Str) : consHead c l ≠ [] := by
  cases l <;> simp [consHead]

lemma splitSlash_ne_nil (s : Str) : splitSlash s ≠ [] := by
  cases s with
  | nil => simp [splitSlash]
  | cons c rest =>
    unfold splitSlash
    split
    · simp
    · exact consHead_ne_nil _ _

lemma splitSlash_noSlash {t : Str} (h : ∀ c ∈ t, c ≠ '/') : splitSlash t = [t] := by
  induction t with
  | nil => rfl
  | cons c rest ih =>
    have hc : c ≠ '/' := h c (by simp)
    have ih' := ih (fun d hd => h d (by simp [hd]))
    unfold splitSlash
    rw [if_neg hc, ih']
    rfl

lemma consHead_append_of_ne_nil (c : Char) {l : List Str} (h : l ≠ []) (m : List Str) :
    consHead c (l ++ m) = consHead c l ++ m := by
  cases l with
  | nil => exact absurd rfl h
  | cons a l' => rfl

lemma splitSlash_append {t : Str} (h : ∀ c ∈ t, c ≠ '/') :
    ∀ a : Str, splitSlash (a ++ '/' :: t) = splitSlash a ++ [t] := by
  intro a
  induction a with
  | nil =>
    show splitSlash ('/' :: t) = splitSlash [] ++ [t]
    unfold splitSlash
    rw [if_pos rfl, splitSlash_noSlash h]
    rfl
  | cons c a' ih =>
    show splitSlash (c :: (a' ++ '/' :: t)) = splitSlash (c :: a') ++ [t]
    unfold splitSlash
    by_cases hc : c = '/'
    · rw [if_pos hc, if_pos hc, ih]
      rfl
    · rw [if_neg hc, if_neg hc, ih, consHead_append_of_ne_nil c (splitSlash_ne_nil a') [t]]

lemma joinSlash_append_single (t : Str) :
    ∀ (l : List Str), l ≠ [] → joinSlash (l ++ [t]) = joinSlash l ++ '/' :: t := by
  intro l
  induction l with
  | nil => intro h; exact absurd rfl h
  | cons p l' ih =>
    intro _
    cases l' with
    | nil => rfl
    | cons q l'' =>
      have h2 := ih (by simp)
      show joinSlash (p :: (q :: l'' ++ [t])) = joinSlash (p :: q :: l'') ++ '/' :: t
      have e1 : joinSlash (p :: (q :: l'' ++ [t]))
          = p ++ '/' :: joinSlash (q :: l'' ++ [t]) := by
        cases l'' <;> rfl
      have e2 : joinSlash (p :: q :: l'') = p ++ '/' :: joinSlash (q :: l'') := rfl
      rw [e1, e2]
      rw [show (q :: l'' ++ [t]) = ((q :: l'') ++ [t]) from rfl, h2]
      simp

lemma normalize_ends {t : Str} (x : Str) (hne : t ≠ [])
    (hs : ∀ c ∈ t, c ≠ '/') (hb : ∀ c ∈ t, c ≠ '\\') :
    ∃ pre, normalizePathModel (x ++ '/' :: t) = pre ++ t := by
  unfold normalizePathModel
  have hmapt : t.map slashNorm = t := by
    have hid : ∀ c ∈ t, slashNorm c = id c := by
      intro c hc
      simp [slashNorm, hb c hc]
    rw [List.map_congr_left hid]
    exact List.map_id t
  have hmap : (x ++ '/' :: t).map slashNorm = x.map slashNorm ++ '/' :: t := by
    rw [List.map_append, List.map_cons, hmapt]
    rfl
  rw [hmap, splitSlash_append hs, List.filter_append]
  have ht : ([t].filter (fun s => !s.isEmpty)) = [t] := by
    simp [List.isEmpty_iff, hne]
  rw [ht]
  cases hfe : (splitSlash (x.map slashNorm)).filter (fun s => !s.isEmpty) with
  | nil => exact ⟨[], rfl⟩
  | cons h tl =>
    refine ⟨joinSlash (h :: tl) ++ ['/'], ?_⟩
    rw [joinSlash_append_single t (h :: tl) (by simp)]
    simp

lemma mem_of_substringOf {c : Char} {p s : Str} (hsub : substringOf p s) (hc : c ∈ p) :
    c ∈ s := by
  obtain ⟨a, b, rfl⟩ := hsub
  simp [hc]

lemma mem_jsTrim {c : Char} {l : Str} (h : c ∈ jsTrim l) : c ∈ l :=
  mem_of_substringOf (trim_substringOf l) h

lemma sanitizeTitle_legal (title : Str) :
    ∀ c ∈ sanitizeTitle title, illegalFileChar c = false := by
  intro c hc
  have hc' : c ∈ title.filter (fun d => !illegalFileChar d) := mem_jsTrim hc
  have := List.of_mem_filter hc'
  simpa using this

lemma trimRight_snoc {l : Str} {c : Char} (h : jsWsChar c = false) :
    trimRight (l ++ [c]) = l ++ [c] := by
  unfold trimRight
  rw [List.reverse_append, List.reverse_singleton, List.singleton_append,
    List.dropWhile_cons_of_neg (by simp [h] : ¬ jsWsChar c = true)]
  simp

lemma dropWhile_head_false {p : Char → Bool} :
    ∀ {l r : Str} {c : Char}, l.dropWhile p = c :: r → p c = false := by
  intro l
  induction l with
  | nil => intro r c h; cases h
  | cons a l' ih =>
    intro r c h
    by_cases hp : p a = true
    · rw [List.dropWhile_cons_of_pos hp] at h
      exact ih h
    · rw [List.dropWhile_cons_of_neg hp] at h
      injection h with h1 _
      rw [← h1]
      simpa using hp

/-- No title equals its own composed target path: the target path ends in
`sanitizeTitle title ++ ".md"`, and a string cannot end with its own
sanitized form followed by `".md"`. -/
lemma title_ne_target (title tf : Str) :
    title ≠ targetPathOf normalizePathModel title tf := by
  intro heq
  have hTlegal := sanitizeTitle_legal title
  have hchars : ∀ c ∈ sanitizeTitle title ++ mdSuffix, c ≠ '/' ∧ c ≠ '\\' := by
    intro c hc
    rcases List.mem_append.mp hc with hcT | hcm
    · have hil := hTlegal c hcT
      constructor
      · intro hc'
        rw [hc'] at hil
        simp [illegalFileChar] at hil
      · intro hc'
        rw [hc'] at hil
        simp [illegalFileChar] at hil
    · have : c = '.' ∨ c = 'm' ∨ c = 'd' := by
        simpa [mdSuffix, strLit] using hcm
      rcases this with rfl | rfl | rfl <;> exact ⟨by decide, by decide⟩
  have hne : sanitizeTitle title ++ mdSuffix ≠ [] := by simp [mdSuffix, strLit]
  obtain ⟨pre, hpre⟩ := normalize_ends tf hne
    (fun c hc => (hchars c hc).1) (fun c hc => (hchars c hc).2)
  unfold targetPathOf at heq
  rw [hpre] at heq
  -- `heq : title = pre ++ (T ++ md)`; apply the legal-character filter.
  have hF : title.filter (fun d => !illegalFileChar d)
      = pre.filter (fun d => !illegalFileChar d) ++ (sanitizeTitle title ++ mdSuffix) := by
    conv_lhs => rw [heq]
    rw [List.filter_append]
    congr 1
    apply List.filter_eq_self.mpr
    intro a ha
    rcases List.mem_append.mp ha with haT | ham
    · simp [hTlegal a haT]
    · have : a = '.' ∨ a = 'm' ∨ a = 'd' := by
        simpa [mdSuffix, strLit] using ham
      rcases this with rfl | rfl | rfl <;> decide
  set F := title.filter (fun d => !illegalFileChar d) with hFdef
  set A := pre.filter (fun d => !illegalFileChar d) with hAdef
  have hTF : sanitizeTitle title = jsTrim F := rfl
  have hmd : mdSuffix = ['.', 'm', 'd'] := rfl
  set W := F.takeWhile jsWsChar with hWdef
  set F' := F.dropWhile jsWsChar with hF'def
  have hWF : F = W ++ F' := (List.takeWhile_append_dropWhile jsWsChar F).symm
  have hsnoc : F = (A ++ (sanitizeTitle title ++ ['.', 'm'])) ++ ['d'] := by
    rw [hF, hmd]
    simp
  have hF'ne : F' ≠ [] := by
    intro h0
    have hFW : F = W := by rw [hWF, h0]; simp
    have hd : 'd' ∈ F := by rw [hsnoc]; simp
    rw [hFW] at hd
    have := List.mem_takeWhile_imp hd
    exact absurd this (by decide)
  have hF'drop : F' = F.drop W.length := by
    rw [hWF, List.drop_left]
  have hlen1 : W.length + F'.length = F.length := by
    rw [hWF]
    simp
  have hlen2 : F.length = (A ++ (sanitizeTitle title ++ ['.', 'm'])).length + 1 := by
    rw [hsnoc]
    simp
    omega
  have hF'pos : 0 < F'.length := List.length_pos.mpr hF'ne
  have hWlen : W.length ≤ (A ++ (sanitizeTitle title ++ ['.', 'm'])).length := by omega
  have hF'snoc : F' = (A ++ (sanitizeTitle title ++ ['.', 'm'])).drop W.length ++ ['d'] := by
    rw [hF'drop, hsnoc, List.drop_append_of_le_length hWlen]
  have htrF' : trimRight F' = F' := by
    rw [hF'snoc]
    exact trimRight_snoc (by decide)
  have hTF' : sanitizeTitle title = F' := by
    rw [hTF]
    unfold jsTrim
    have h1 : trimLeft F = F' := rfl
    rw [h1, htrF']
  have hlenT : (sanitizeTitle title).length = F'.length := by rw [hTF']
  have hlen3 : F.length = A.length + (sanitizeTitle title).length + 3 := by
    rw [hF]
    simp [hmd]
    omega
  have hWA3 : W.length = A.length + 3 := by omega
  set mid := W.drop A.length with hmiddef
  have hWtake : W = F.take W.length := by
    rw [hWF, List.take_left]
  have hAtake : A = F.take A.length := by
    rw [hF, List.take_left]
  have hWA : W = A ++ mid := by
    have h1 : W.take A.length = A := by
      rw [hWtake, List.take_take, min_eq_left (by omega), ← hAtake]
    conv_lhs => rw [← List.take_append_drop A.length W]
    rw [h1]
  have hmidlen : mid.length = 3 := by
    rw [hmiddef]
    simp [List.length_drop]
    omega
  have hcancel : mid ++ F' = F' ++ mdSuffix := by
    have h1 : W ++ F' = A ++ (F' ++ mdSuffix) := by
      rw [← hWF, hF, hTF']
    rw [hWA, List.append_assoc] at h1
    exact List.append_cancel_left h1
  have hmidws : ∀ c ∈ mid, jsWsChar c = true := by
    intro c hc
    have hcW : c ∈ W := List.drop_subset _ _ (hmiddef ▸ hc)
    exact List.mem_takeWhile_imp hcW
  cases hF'e : F' with
  | nil => exact hF'ne hF'e
  | cons e F'' =>
    have hdw : F.dropWhile jsWsChar = e :: F'' := by
      rw [← hF'def]
      exact hF'e
    have he : jsWsChar e = false := dropWhile_head_false hdw
    cases hmide : mid with
    | nil =>
      rw [hmide] at hmidlen
      simp at hmidlen
    | cons m mid' =>
      rw [hmide, hF'e] at hcancel
      simp only [List.cons_append] at hcancel
      injection hcancel with hme _
      have hm : jsWsChar m = true := hmidws m (by rw [hmide]; simp)
      rw [hme, he] at hm
      simp at hm

/-- C9 — clipboard link vs. inserted link mismatch (`part_003` lines
156-166, 192-197, 214-216).  The diversion path builds its clipboard link
from the raw response title (`[[response.title|label]]`), while the safe
path inserts `[[newFile.path|label]]` with the created file's normalized,
sanitized path.  For any response whose title contains a
filename-illegal character, or whose target folder is not the vault
root — indeed for every response whose label renders the same in both
branches — the clipboard link differs from the link that would have been
inserted, and the clipboard link's target is not the created file's
path. -/
theorem c9_link_mismatch (resp : GenerationResponse) (tf snap : Str)
    (hlab : resp.anchorLabel = none ∨ resp.anchorLabel = some (Json.str []) ∨
            ∃ s, resp.anchorLabel = some (Json.str s) ∧ jsTrim s ≠ [])
    (_hclaim : (∃ c ∈ resp.title, illegalFileChar c = true) ∨ (tf ≠ [] ∧ tf ≠ ['/'])) :
    resp.title ≠ targetPathOf normalizePathModel resp.title tf ∧
    ∀ lab, linkLabelOf resp.anchorLabel snap = .ok lab →
      divertClipboardText resp snap = wikiLink resp.title lab ∧
      divertClipboardText resp snap
        ≠ wikiLink (targetPathOf normalizePathModel resp.title tf) lab := by
  have hneq := title_ne_target resp.title tf
  refine ⟨hneq, ?_⟩
  intro lab hlabok
  have hd : divertClipboardText resp snap = wikiLink resp.title lab := by
    rcases hlab with h | h | ⟨s, hs, hts⟩
    · rw [h] at hlabok
      simp [linkLabelOf] at hlabok
      unfold divertClipboardText
      rw [h]
      simp [jsTruthyOpt, hlabok]
    · rw [h] at hlabok
      simp [linkLabelOf, jsTruthy] at hlabok
      unfold divertClipboardText
      rw [h]
      simp [jsTruthyOpt, jsTruthy, hlabok]
    · have hsne : s ≠ [] := by
        intro h0
        rw [h0] at hts
        exact hts rfl
      rw [hs] at hlabok
      simp [linkLabelOf, jsTruthy, hsne, List.isEmpty_iff, hts] at hlabok
      subst hlabok
      unfold divertClipboardText
      rw [hs]
      simp [jsTruthyOpt, jsTruthy, List.isEmpty_iff, hsne, jsDisplayOpt, jsDisplay]
  refine ⟨hd, ?_⟩
  rw [hd]
  intro hlink
  apply hneq
  unfold wikiLink at hlink
  have h1 := List.append_cancel_right hlink
  have h2 := List.append_cancel_right h1
  have h3 := List.append_cancel_right h2
  exact List.append_cancel_left h3

/-- Witness for C9: title `"A:B"` (illegal `:`), folder `notes`, no anchor
label — the clipboard link `[[A:B|sel]]` differs from the inserted link
`[[notes/AB.md|sel]]` and does not name the created file's path. -/
theorem c9_link_mismatch_witness :
    (strLit "A:B" ≠ targetPathOf normalizePathModel (strLit "A:B") (strLit "notes")) ∧
    divertClipboardText
        { title := strLit "A:B", content := strLit "c", anchorLabel := none, isFallback := false }
        (strLit "sel")
      = wikiLink (strLit "A:B") (strLit "sel") ∧
    divertClipboardText
        { title := strLit "A:B", content := strLit "c", anchorLabel := none, isFallback := false }
        (strLit "sel")
      ≠ wikiLink (targetPathOf normalizePathModel (strLit "A:B") (strLit "notes"))
          (strLit "sel") := by
  have h := c9_link_mismatch
    { title := strLit "A:B", content := strLit "c", anchorLabel := none, isFallback := false }
    (strLit "notes") (strLit "sel")
    (Or.inl rfl)
    (Or.inl ⟨':', by decide, by decide⟩)
  exact ⟨h.1, (h.2 (strLit "sel") rfl).1, (h.2 (strLit "sel") rfl).2⟩
